import Mathlib

/-!
Verification of the asset-cataloguing and preview-compositing subsystem of
`create-threejs-game`.

The development shallowly embeds the relevant functions of
`template/scripts/generate-assets-json.js` (asset indexer),
the standalone combine-previews script (`combineImages`, `findPreviews`),
and `bin/cli.js` (`findPreview`, `findPacksWithPreviews`, `combinePreviews`).

Modelling conventions:
* A directory's contents are an `FsList` (a bespoke list of entries, kept
  mutually inductive with `Fs` so that the recursive directory walks are
  structurally recursive and hence computable inside the kernel) in
  `fs.readdirSync` enumeration order; `fs.existsSync(path.join(dir, name))`
  is an entry-name lookup.
* Paths are component lists relative to the asset root (`[]` is the root
  itself).  Since directory-entry names cannot contain the separator, the
  source's string test `filePath.startsWith(packDir + path.sep)` is exactly
  a proper component-list prefix test, and `path.relative(root, p)` followed
  by backslash normalisation is the `"/"`-join of the components.
* `name.startsWith('.')` is `startsWithDot` (first character a dot);
  `ext.toLowerCase()` is `lowerStr` (per-character `Char.toLower`); both
  match the library functions on entry names and are kernel-computable.
* `String.prototype.localeCompare` is modelled as code-point lexicographic
  comparison (`strLt`, the order the spec calls "lexical"); it agrees with
  the default collation on the all-lowercase ASCII names the claims exercise.
* `Array.prototype.sort` (stable, ES2019) is modelled by stable insertion
  sort (`List.insertionSort`) with the comparator's "comes no later"
  relation; for a comparator that is a total preorder any stable sort
  produces this list.
* JS numbers: every quantity here (counts, grid geometry) is a small
  natural number.  `Math.ceil(Math.sqrt n)` is `ceilSqrt n`, the least `c`
  with `n ≤ c * c`, and `Math.ceil (n / cols)` the exact `Nat` ceiling —
  both coincide with the floating-point computation throughout the feasible
  range.
* The image library `sharp` is external: a preview is modelled by its name
  together with a flag telling whether its decode/resize succeeds, and a
  compositing run is modelled by the canvas geometry and the offsets of the
  tiles actually composited.
-/

namespace AssetPipeline

/-! ### Strings -/

/-- `name.startsWith('.')` on an entry name: its first character is a dot. -/
def startsWithDot (n : String) : Bool :=
  match n.data with
  | [] => false
  | c :: _ => c == '.'

/-- `ext.toLowerCase()`: per-character lowercasing. -/
def lowerStr (s : String) : String :=
  String.mk (s.data.map Char.toLower)

/-- Code-point lexicographic comparison of character lists. -/
def strLtB : List Char → List Char → Bool
  | [], [] => false
  | [], _ :: _ => true
  | _ :: _, [] => false
  | a :: as, b :: bs =>
      if a.toNat < b.toNat then true
      else if b.toNat < a.toNat then false
      else strLtB as bs

/-- `a.localeCompare(b) < 0`, modelled as code-point order. -/
def strLt (a b : String) : Bool := strLtB a.data b.data

/-- `a.localeCompare(b) ≤ 0`, modelled as code-point order. -/
def strLe (a b : String) : Bool := a == b || strLt a b

/-! ### The file-system tree -/

mutual
/-- A file-system entry: a plain file, or a directory with its own entries
(in `fs.readdirSync` enumeration order). -/
inductive Fs : Type where
  | file : String → Fs
  | dir : String → FsList → Fs

/-- The entries of one directory, in enumeration order. -/
inductive FsList : Type where
  | nil : FsList
  | cons : Fs → FsList → FsList
end

def Fs.name : Fs → String
  | .file n => n
  | .dir n _ => n

/-- Entry list from an ordinary list (used only to write examples). -/
def fsl : List Fs → FsList
  | [] => .nil
  | e :: r => .cons e (fsl r)

/-- `fs.existsSync(path.join(dir, nm))`: the directory has an entry (file or
subdirectory) with exactly this name. -/
def hasEntry : FsList → String → Bool
  | .nil, _ => false
  | .cons e rest, nm => e.name == nm || hasEntry rest nm

/-- `path.relative(rootDir, p).replace(/\\/g, '/')` for a path at or below
the root, on component lists: the `"/"`-join (`""` for the root itself). -/
def joinPath (comps : List String) : String :=
  String.intercalate "/" comps

/-! ### Preview lookup -/

/-- The candidate preview file names of `findPreview` in
`generate-assets-json.js` and in `bin/cli.js`, in source order. -/
def previewNamesIdx : List String :=
  ["Preview.jpg", "Preview.png", "preview.jpg", "preview.png",
   "Preview.jpeg", "preview.jpeg",
   "Content.jpg", "Content.png", "content.jpg", "content.png",
   "Content.jpeg", "content.jpeg"]

/-- The candidate preview file names of `findPreview` in the standalone
combine-previews script, in source order (no `Content`/`content` variants). -/
def previewNamesCombine : List String :=
  ["Preview.jpg", "Preview.png", "preview.jpg", "preview.png",
   "Preview.jpeg", "preview.jpeg"]

/-- Body shared by the three `findPreview(dir)` functions: the first name of
the candidate list for which `fs.existsSync(path.join(dir, name))` holds
(the source returns the joined path; the model returns the name). -/
def findPreviewWith (names : List String) (es : FsList) : Option String :=
  names.find? (fun nm => hasEntry es nm)

/-- `findPreview` of `generate-assets-json.js` / `bin/cli.js` (12 names). -/
def findPreviewIdx (es : FsList) : Option String :=
  findPreviewWith previewNamesIdx es

/-- `findPreview` of the combine-previews script (6 names). -/
def findPreviewCombine (es : FsList) : Option String :=
  findPreviewWith previewNamesCombine es

/-! ### Pack detection -/

/-- The recursive part of `findPackDirs`'s `scan`: for each entry of the
current directory (at component path `p` below the root), a non-hidden
subdirectory is emitted when its own entries contain a preview name, then
scanned recursively — `scan(dir)` pushes `dir` before walking its entries,
so emission is pre-order. -/
def findPackDirsAux (p : List String) : FsList → List (List String)
  | .nil => []
  | .cons (.file _) rest => findPackDirsAux p rest
  | .cons (.dir n es) rest =>
      (if startsWithDot n then []
       else (if (findPreviewIdx es).isSome then [p ++ [n]] else []) ++
         findPackDirsAux (p ++ [n]) es) ++
      findPackDirsAux p rest
termination_by structural l => l

/-- `findPackDirs(rootDir)` of `generate-assets-json.js`: `scan` starts at the
root itself, so the root (path `[]`) is emitted too when it directly contains
a preview name. -/
def findPackDirs (root : FsList) : List (List String) :=
  (if (findPreviewIdx root).isSome then [[]] else []) ++ findPackDirsAux [] root

/-- `findPreviews(sourceDir, basePath)` of the combine-previews script,
restricted to the emitted directories: like `findPackDirsAux` but with the
six-name preview list; the root itself is skipped (`sourceDir !== basePath`). -/
def findPreviewsAux (p : List String) : FsList → List (List String)
  | .nil => []
  | .cons (.file _) rest => findPreviewsAux p rest
  | .cons (.dir n es) rest =>
      (if startsWithDot n then []
       else (if (findPreviewCombine es).isSome then [p ++ [n]] else []) ++
         findPreviewsAux (p ++ [n]) es) ++
      findPreviewsAux p rest
termination_by structural l => l

def findPreviews (root : FsList) : List (List String) :=
  findPreviewsAux [] root

/-- `findPacksWithPreviews(dir, basePath)` of `bin/cli.js`, restricted to the
emitted directories: twelve-name preview list, root skipped
(`dir !== basePath`), hidden directories pruned. -/
def findPacksWithPreviewsAux (p : List String) : FsList → List (List String)
  | .nil => []
  | .cons (.file _) rest => findPacksWithPreviewsAux p rest
  | .cons (.dir n es) rest =>
      (if startsWithDot n then []
       else (if (findPreviewIdx es).isSome then [p ++ [n]] else []) ++
         findPacksWithPreviewsAux (p ++ [n]) es) ++
      findPacksWithPreviewsAux p rest
termination_by structural l => l

def findPacksWithPreviews (root : FsList) : List (List String) :=
  findPacksWithPreviewsAux [] root

/-! ### Classification -/

/-- Model of Node's `path.extname` on a bare entry name: the suffix starting
at the last dot; a dot at position 0 (dotfile) yields `""`, as does a name
with no dot, and the special name `".."`. -/
def extname (n : String) : String :=
  if n == ".." then ""
  else
    match n.data.reverse.findIdx? (fun c => c == '.') with
    | none => ""
    | some j =>
        let i := n.data.length - 1 - j
        if i == 0 then "" else String.mk (n.data.drop i)

/-- `SUPPORTED_EXTENSIONS['3d']`. -/
def supported3d : List String := [".gltf", ".glb", ".obj", ".fbx"]

/-- `SUPPORTED_EXTENSIONS.images`. -/
def supportedImages : List String := [".png", ".jpg", ".jpeg", ".webp", ".gif"]

/-- `SUPPORTED_EXTENSIONS.audio`. -/
def supportedAudio : List String := [".mp3", ".wav", ".ogg"]

/-- `SUPPORTED_EXTENSIONS.other` (listed in the source but never part of the
inclusion filter). -/
def supportedOther : List String := [".json", ".txt"]

/-- `getCategory(ext)` of `generate-assets-json.js`. -/
def getCategory (ext0 : String) : String :=
  let ext := lowerStr ext0
  if supported3d.contains ext then
    if ext == ".gltf" || ext == ".glb" then "glTF" else "3D"
  else if supportedImages.contains ext then "PNG"
  else if supportedAudio.contains ext then "Audio"
  else "Other"

/-- The `allExtensions` inclusion filter built inside `scanDirectory`. -/
def allExtensions : List String :=
  supported3d ++ supportedImages ++ supportedAudio

/-! ### Pack assignment and the asset scan -/

/-- `getPackName(filePath, packDirs, rootDir)`: the first pack directory whose
absolute path plus a separator is a string prefix of the file's absolute path
(on component lists: a proper prefix) names the pack, by its root-relative
slash-joined path; with no match the function falls back to the first
component of the file's root-relative path when that path has more than one
component, and to `null` otherwise. -/
def getPackName (fileComps : List String) (packDirs : List (List String)) :
    Option String :=
  match packDirs.find?
      (fun pd => pd.isPrefixOf fileComps && decide (pd.length < fileComps.length)) with
  | some pd => some (joinPath pd)
  | none =>
      match fileComps with
      | c :: _ :: _ => some c
      | _ => none

/-- JS truthiness filter for `if (pack) asset.pack = pack`: a non-null,
non-empty string survives. -/
def truthyStr : Option String → Option String
  | none => none
  | some s => if s == "" then none else some s

/-- One record of the generated `assets` array.  The derived display field
`path` (a constant prefix glued to `relativePath`) is omitted. -/
structure Asset where
  name : String
  relativePath : String
  category : String
  extension : String
  focusGlTF : Bool
  pack : Option String
deriving Repr, DecidableEq

/-- `scanDirectory(dir, relativeTo, packDirs)` of `generate-assets-json.js`:
walks entries in order, recursing into non-hidden subdirectories, and emits
one record per file that is not `assets.json` and whose lowercased extension
passes the `allExtensions` filter.  The `pack` field is present only when
`getPackName` returns a truthy string. -/
def scanDirectory (packDirs : List (List String)) (p : List String) :
    FsList → List Asset
  | .nil => []
  | .cons (.dir n es) rest =>
      (if startsWithDot n then [] else scanDirectory packDirs (p ++ [n]) es) ++
      scanDirectory packDirs p rest
  | .cons (.file n) rest =>
      (if n == "assets.json" then []
       else
         let ext := lowerStr (extname n)
         if allExtensions.contains ext then
           [{ name := n
              relativePath := joinPath (p ++ [n])
              category := getCategory ext
              extension := ext
              focusGlTF := ext == ".gltf" || ext == ".glb"
              pack := truthyStr (getPackName (p ++ [n]) packDirs) }]
         else []) ++
      scanDirectory packDirs p rest
termination_by structural l => l

/-! ### Sorting and aggregation -/

/-- `localeCompare`, modelled as code-point comparison: negative, zero or
positive as the strings compare. -/
def compareStr (a b : String) : Int :=
  if a == b then 0 else if strLt a b then -1 else 1

/-- JS truthiness of the (possibly absent) `pack` field. -/
def optTruthy : Option String → Bool
  | none => false
  | some s => s != ""

/-- The `assets.sort` comparator of `generate-assets-json.js`. -/
def assetCompare (a b : Asset) : Int :=
  if optTruthy a.pack && optTruthy b.pack then
    let pc := compareStr (a.pack.getD "") (b.pack.getD "")
    if pc != 0 then pc else compareStr a.name b.name
  else if optTruthy a.pack then 1
  else if optTruthy b.pack then -1
  else compareStr a.name b.name

def assetLe (a b : Asset) : Bool :=
  decide (assetCompare a b ≤ 0)

/-- `assets.sort(comparator)` — ES2019 `Array#sort` is a stable sort by the
comparator, modelled as stable insertion sort by the comparator's
"comes no later" relation. -/
def sortAssets (l : List Asset) : List Asset :=
  List.insertionSort (fun a b => assetLe a b = true) l

/-- Object-key update used for `categoryCounts` / `packCounts`: bump an
existing key in place, else append (JS object insertion order). -/
def bumpCount (m : List (String × Nat)) (k : String) : List (String × Nat) :=
  match m with
  | [] => [(k, 1)]
  | (k2, v) :: rest => if k2 == k then (k2, v + 1) :: rest else (k2, v) :: bumpCount rest k

def countsBy (f : Asset → String) (l : List Asset) : List (String × Nat) :=
  l.foldl (fun m a => bumpCount m (f a)) []

/-- `asset.pack || '(root)'`. -/
def packKey (a : Asset) : String :=
  match a.pack with
  | some s => if s == "" then "(root)" else s
  | none => "(root)"

/-- `assets.map(a => a.pack).filter(Boolean)`. -/
def truthyPacks (l : List Asset) : List String :=
  l.filterMap (fun a => truthyStr a.pack)

/-- `[...new Set(xs)]`: deduplicate keeping first occurrences. -/
def dedupKeepFirst (l : List String) : List String :=
  l.foldl (fun acc x => if acc.contains x then acc else acc ++ [x]) []

/-- The `metadata` object of the generated index (the `generatedAt` timestamp
and the constant `root` string are omitted). `packs`/`packCounts` are `none`
when the source leaves them `undefined`. -/
structure Metadata where
  totalAssets : Nat
  glTFAssetCount : Nat
  categories : List (String × Nat)
  packs : Option (List String)
  packCounts : Option (List (String × Nat))
deriving Repr, DecidableEq

/-- The sorted asset list of a run of `generate-assets-json.js` on the given
root contents: pack detection, scan, then sort. -/
def buildAssets (root : FsList) : List Asset :=
  sortAssets (scanDirectory (findPackDirs root) [] root)

/-- The metadata of a run of `generate-assets-json.js`: counts over the
sorted assets; `packs`/`packCounts` only when some asset has a truthy pack. -/
def buildMetadata (root : FsList) : Metadata :=
  let assets := buildAssets root
  let packs := dedupKeepFirst (truthyPacks assets)
  { totalAssets := assets.length
    glTFAssetCount := (assets.filter (fun a => a.focusGlTF)).length
    categories := countsBy (fun a => a.category) assets
    packs := if packs.length > 0 then some packs else none
    packCounts := if packs.length > 0 then some (countsBy packKey assets) else none }

/-! ### Preview grid compositor -/

/-- One preview supplied to a compositing run: its pack name and whether
`sharp(path).resize(...).toBuffer()` succeeds on it (decode/resize outcome,
external to the embedded logic). -/
structure PreviewJob where
  name : String
  ok : Bool
deriving Repr, DecidableEq

/-- Count-up kernel of `ceilSqrt`. -/
def ceilSqrtAux (n : Nat) : Nat → Nat → Nat
  | 0, c => c
  | fuel + 1, c => if n ≤ c * c then c else ceilSqrtAux n fuel (c + 1)

/-- `Math.ceil(Math.sqrt(n))`: the least `c` with `n ≤ c * c` (`n` itself
always satisfies the bound, so `n` steps of search suffice). -/
def ceilSqrt (n : Nat) : Nat := ceilSqrtAux n n 0

/-- `calculateGrid(count)`: `cols = Math.ceil(Math.sqrt(count))`,
`rows = Math.ceil(count / cols)`, as exact `Nat` ceilings. -/
def calculateGrid (count : Nat) : Nat × Nat :=
  let cols := ceilSqrt count
  let rows := (count + cols - 1) / cols
  (cols, rows)

/-- Fixed cell width (`cellWidth = 960`). -/
def cellWidth : Nat := 960

/-- Fixed cell height (`cellHeight = 540`). -/
def cellHeight : Nat := 540

/-- Fixed padding (`padding = 15`). -/
def gridPadding : Nat := 15

/-- Horizontal offset of tile `i`: `padding + (i % cols) * (cellWidth + padding)`. -/
def tileX (cols i : Nat) : Nat :=
  gridPadding + (i % cols) * (cellWidth + gridPadding)

/-- Vertical offset of tile `i`: `padding + floor(i / cols) * (cellHeight + padding)`. -/
def tileY (cols i : Nat) : Nat :=
  gridPadding + (i / cols) * (cellHeight + gridPadding)

/-- `totalWidth = cols * cellWidth + (cols + 1) * padding`. -/
def canvasWidth (cols : Nat) : Nat :=
  cols * cellWidth + (cols + 1) * gridPadding

/-- `totalHeight = rows * cellHeight + (rows + 1) * padding`. -/
def canvasHeight (rows : Nat) : Nat :=
  rows * cellHeight + (rows + 1) * gridPadding

/-- The per-preview loop shared by both compositors, starting at index `i`:
a preview whose resize succeeds contributes a composite at its index-derived
offset; a failing one is reported and skipped, leaving its grid position
unfilled (later indices are not compacted forward). -/
def compositeTiles (cols i : Nat) : List PreviewJob → List (Nat × Nat)
  | [] => []
  | p :: rest =>
      (if p.ok then [(tileX cols i, tileY cols i)] else []) ++
      compositeTiles cols (i + 1) rest

/-- Observable outcome of a compositing run that produced a file: either a
byte-for-byte copy of the single preview, or a composite canvas of the given
size holding tiles at the given offsets. -/
inductive ComposeResult : Type where
  | copied : String → ComposeResult
  | grid : Nat → Nat → List (Nat × Nat) → ComposeResult
deriving Repr, DecidableEq

/-- `combineImages(previews, outputPath)` of the combine-previews script:
`null` (no file) for an empty list, a plain copy for a single preview, and
otherwise a canvas that is written even when `composites` ends up empty —
this function has no emptiness check after the loop. -/
def combineImages (previews : List PreviewJob) : Option ComposeResult :=
  match previews with
  | [] => none
  | [p] => some (.copied p.name)
  | _ =>
      let cr := calculateGrid previews.length
      some (.grid (canvasWidth cr.1) (canvasHeight cr.2)
        (compositeTiles cr.1 0 previews))

/-- `combinePreviews(packs, outputPath)` of `bin/cli.js` (with `sharp`
available): same grid computation, but `if (composites.length === 0) return
null;` fires before any file is written. -/
def combinePreviews (packs : List PreviewJob) : Option ComposeResult :=
  let cr := calculateGrid packs.length
  let composites := compositeTiles cr.1 0 packs
  if composites.length == 0 then none
  else some (.grid (canvasWidth cr.1) (canvasHeight cr.2) composites)

/-! ### Order lemmas for the string comparison -/

theorem strLtB_irrefl : ∀ l : List Char, strLtB l l = false := by
  intro l
  induction l with
  | nil => rfl
  | cons a as ih => simp [strLtB, ih]

theorem strLtB_trans : ∀ l1 l2 l3 : List Char,
    strLtB l1 l2 = true → strLtB l2 l3 = true → strLtB l1 l3 = true := by
  intro l1
  induction l1 with
  | nil =>
      intro l2 l3 h12 h23
      cases l2 with
      | nil => simp [strLtB] at h12
      | cons b bs =>
          cases l3 with
          | nil => simp [strLtB] at h23
          | cons c cs => rfl
  | cons a as ih =>
      intro l2 l3 h12 h23
      cases l2 with
      | nil => simp [strLtB] at h12
      | cons b bs =>
          cases l3 with
          | nil => simp [strLtB] at h23
          | cons c cs =>
              simp only [strLtB] at h12 h23 ⊢
              by_cases h1 : a.toNat < b.toNat
              · by_cases h2 : b.toNat < c.toNat
                · rw [if_pos (by omega)]
                · rw [if_neg h2] at h23
                  by_cases h2' : c.toNat < b.toNat
                  · rw [if_pos h2'] at h23
                    exact absurd h23 (by simp)
                  · rw [if_pos (by omega)]
              · rw [if_neg h1] at h12
                by_cases h1' : b.toNat < a.toNat
                · rw [if_pos h1'] at h12
                  exact absurd h12 (by simp)
                · rw [if_neg h1'] at h12
                  by_cases h2 : b.toNat < c.toNat
                  · rw [if_pos (by omega)]
                  · rw [if_neg h2] at h23
                    by_cases h2' : c.toNat < b.toNat
                    · rw [if_pos h2'] at h23
                      exact absurd h23 (by simp)
                    · rw [if_neg h2'] at h23
                      rw [if_neg (by omega), if_neg (by omega)]
                      exact ih bs cs h12 h23

theorem strLtB_connex : ∀ l1 l2 : List Char,
    strLtB l1 l2 = false → strLtB l2 l1 = false → l1 = l2 := by
  intro l1
  induction l1 with
  | nil =>
      intro l2 h12 h21
      cases l2 with
      | nil => rfl
      | cons b bs => simp [strLtB] at h12
  | cons a as ih =>
      intro l2 h12 h21
      cases l2 with
      | nil => simp [strLtB] at h21
      | cons b bs =>
          simp only [strLtB] at h12 h21
          by_cases h1 : a.toNat < b.toNat
          · rw [if_pos h1] at h12
            exact absurd h12 (by simp)
          · by_cases h1' : b.toNat < a.toNat
            · rw [if_pos h1'] at h21
              exact absurd h21 (by simp)
            · rw [if_neg h1, if_neg h1'] at h12
              rw [if_neg h1', if_neg h1] at h21
              have hn : a.toNat = b.toNat := by omega
              have hab : a = b := Char.eq_of_val_eq (UInt32.toNat.inj hn)
              rw [hab, ih bs h12 h21]

theorem strLt_irrefl (a : String) : strLt a a = false := strLtB_irrefl a.data

theorem strLt_trans {a b c : String} (h1 : strLt a b = true) (h2 : strLt b c = true) :
    strLt a c = true := strLtB_trans a.data b.data c.data h1 h2

theorem strLt_connex {a b : String} (h1 : strLt a b = false) (h2 : strLt b a = false) :
    a = b := by
  have hd := strLtB_connex a.data b.data h1 h2
  cases a with
  | mk da =>
      cases b with
      | mk db => exact congrArg String.mk hd

theorem strLt_trichotomy (a b : String) :
    strLt a b = true ∨ a = b ∨ strLt b a = true := by
  by_cases h1 : strLt a b = true
  · exact Or.inl h1
  · by_cases h2 : strLt b a = true
    · exact Or.inr (Or.inr h2)
    · exact Or.inr (Or.inl (strLt_connex (by simpa using h1) (by simpa using h2)))

theorem strLt_asymm {a b : String} (h : strLt a b = true) : strLt b a = false := by
  by_contra hc
  have h2 : strLt b a = true := by simpa using hc
  have := strLt_trans h h2
  rw [strLt_irrefl] at this
  exact Bool.noConfusion this

theorem strLe_trans {a b c : String} (h1 : strLe a b = true) (h2 : strLe b c = true) :
    strLe a c = true := by
  simp only [strLe, Bool.or_eq_true, beq_iff_eq] at h1 h2 ⊢
  rcases h1 with h1 | h1
  · rw [h1]
    exact h2
  · rcases h2 with h2 | h2
    · rw [← h2]
      exact Or.inr h1
    · exact Or.inr (strLt_trans h1 h2)

theorem strLe_total (a b : String) :
    strLe a b = true ∨ strLe b a = true := by
  rcases strLt_trichotomy a b with h | h | h
  · exact Or.inl (by simp [strLe, h])
  · exact Or.inl (by simp [strLe, h])
  · exact Or.inr (by simp [strLe, h])

/-! ### Structural lemmas -/

theorem joinPath_nil : joinPath [] = "" := rfl

theorem truthyStr_ne_some_empty : ∀ o : Option String, truthyStr o ≠ some "" := by
  intro o
  match o with
  | none => simp [truthyStr]
  | some s =>
      by_cases h : s = ""
      · simp [truthyStr, h]
      · simp [truthyStr, h]

/-- Every directory `findPackDirsAux` emits lies strictly below the path it
was started at. -/
theorem findPackDirsAux_mem : ∀ (p : List String) (es : FsList) (q : List String),
    q ∈ findPackDirsAux p es → ∃ r, r ≠ [] ∧ q = p ++ r := by
  intro p es
  induction p, es using findPackDirsAux.induct with
  | case1 p => intro q h; simp [findPackDirsAux] at h
  | case2 p a rest ih =>
      intro q h
      simp only [findPackDirsAux] at h
      exact ih q h
  | case3 p n es rest ih1 ih2 =>
      intro q h
      simp only [findPackDirsAux] at h
      rcases List.mem_append.mp h with h1 | h2
      · by_cases hn : startsWithDot n
        · simp [hn] at h1
        · rw [if_neg (by simpa using hn)] at h1
          rcases List.mem_append.mp h1 with h3 | h4
          · by_cases hp : (findPreviewIdx es).isSome
            · rw [if_pos hp, List.mem_singleton] at h3
              exact ⟨[n], by simp, by simp [h3]⟩
            · rw [if_neg (by simpa using hp)] at h3
              simp at h3
          · rcases ih1 q h4 with ⟨r, hr, hq⟩
            exact ⟨n :: r, by simp, by simpa using hq⟩
      · exact ih2 q h2

/-- Every directory `findPreviewsAux` emits lies strictly below the path it
was started at. -/
theorem findPreviewsAux_mem : ∀ (p : List String) (es : FsList) (q : List String),
    q ∈ findPreviewsAux p es → ∃ r, r ≠ [] ∧ q = p ++ r := by
  intro p es
  induction p, es using findPreviewsAux.induct with
  | case1 p => intro q h; simp [findPreviewsAux] at h
  | case2 p a rest ih =>
      intro q h
      simp only [findPreviewsAux] at h
      exact ih q h
  | case3 p n es rest ih1 ih2 =>
      intro q h
      simp only [findPreviewsAux] at h
      rcases List.mem_append.mp h with h1 | h2
      · by_cases hn : startsWithDot n
        · simp [hn] at h1
        · rw [if_neg (by simpa using hn)] at h1
          rcases List.mem_append.mp h1 with h3 | h4
          · by_cases hp : (findPreviewCombine es).isSome
            · rw [if_pos hp, List.mem_singleton] at h3
              exact ⟨[n], by simp, by simp [h3]⟩
            · rw [if_neg (by simpa using hp)] at h3
              simp at h3
          · rcases ih1 q h4 with ⟨r, hr, hq⟩
            exact ⟨n :: r, by simp, by simpa using hq⟩
      · exact ih2 q h2

/-- Every directory `findPacksWithPreviewsAux` emits lies strictly below the
path it was started at. -/
theorem findPacksWithPreviewsAux_mem :
    ∀ (p : List String) (es : FsList) (q : List String),
    q ∈ findPacksWithPreviewsAux p es → ∃ r, r ≠ [] ∧ q = p ++ r := by
  intro p es
  induction p, es using findPacksWithPreviewsAux.induct with
  | case1 p => intro q h; simp [findPacksWithPreviewsAux] at h
  | case2 p a rest ih =>
      intro q h
      simp only [findPacksWithPreviewsAux] at h
      exact ih q h
  | case3 p n es rest ih1 ih2 =>
      intro q h
      simp only [findPacksWithPreviewsAux] at h
      rcases List.mem_append.mp h with h1 | h2
      · by_cases hn : startsWithDot n
        · simp [hn] at h1
        · rw [if_neg (by simpa using hn)] at h1
          rcases List.mem_append.mp h1 with h3 | h4
          · by_cases hp : (findPreviewIdx es).isSome
            · rw [if_pos hp, List.mem_singleton] at h3
              exact ⟨[n], by simp, by simp [h3]⟩
            · rw [if_neg (by simpa using hp)] at h3
              simp at h3
          · rcases ih1 q h4 with ⟨r, hr, hq⟩
            exact ⟨n :: r, by simp, by simpa using hq⟩
      · exact ih2 q h2

/-- The root (`[]`) appears in `findPackDirs`'s output exactly when the root
directory itself directly contains one of the twelve preview names. -/
theorem mem_findPackDirs_iff_rootPreview (root : FsList) :
    [] ∈ findPackDirs root ↔ (findPreviewIdx root).isSome = true := by
  unfold findPackDirs
  constructor
  · intro h
    rcases List.mem_append.mp h with h1 | h2
    · by_cases hp : (findPreviewIdx root).isSome
      · exact hp
      · simp [hp] at h1
    · exfalso
      rcases findPackDirsAux_mem [] root [] h2 with ⟨r, hr, he⟩
      simp at he
      exact hr he
  · intro h
    simp [h]

/-- What a run of `scanDirectory` guarantees of every record it emits:
its classification fields are computed from its lowercased extension, the
extension passed the inclusion filter, and its `pack` field is the truthy
part of `getPackName` applied to its path components. -/
def ScanInv (packDirs : List (List String)) (a : Asset) : Prop :=
  ∃ q : List String,
    a.extension = lowerStr (extname a.name) ∧
    allExtensions.contains a.extension = true ∧
    a.category = getCategory a.extension ∧
    a.focusGlTF = (a.extension == ".gltf" || a.extension == ".glb") ∧
    a.relativePath = joinPath (q ++ [a.name]) ∧
    a.pack = truthyStr (getPackName (q ++ [a.name]) packDirs)

theorem scanDirectory_mem (packDirs : List (List String)) :
    ∀ (p : List String) (es : FsList) (a : Asset),
    a ∈ scanDirectory packDirs p es → ScanInv packDirs a := by
  intro p es
  induction p, es using scanDirectory.induct packDirs with
  | case1 p => intro a h; simp [scanDirectory] at h
  | case2 p n es rest ih1 ih2 =>
      intro a h
      simp only [scanDirectory] at h
      rcases List.mem_append.mp h with h1 | h2
      · by_cases hn : startsWithDot n
        · simp [hn] at h1
        · rw [if_neg (by simpa using hn)] at h1
          exact ih1 a h1
      · exact ih2 a h2
  | case3 p n rest ih =>
      intro a h
      simp only [scanDirectory] at h
      rcases List.mem_append.mp h with h1 | h2
      · by_cases hj : (n == "assets.json") = true
        · rw [if_pos hj] at h1
          simp at h1
        · rw [if_neg hj] at h1
          by_cases hc : allExtensions.contains (lowerStr (extname n)) = true
          · rw [if_pos hc] at h1
            rw [List.mem_singleton] at h1
            subst h1
            exact ⟨p, rfl, hc, rfl, rfl, rfl, rfl⟩
          · rw [if_neg hc] at h1
            simp at h1
      · exact ih a h2

/-- Every asset of the generated index satisfies the scan invariant. -/
theorem buildAssets_mem (root : FsList) (a : Asset) (h : a ∈ buildAssets root) :
    ScanInv (findPackDirs root) a := by
  unfold buildAssets sortAssets at h
  exact scanDirectory_mem (findPackDirs root) [] root a
    ((List.mem_insertionSort _).mp h)

/-! ### The sort comparator -/

theorem compareStr_le_iff {a b : String} : compareStr a b ≤ 0 ↔ strLe a b = true := by
  unfold compareStr strLe
  by_cases h : a = b
  · simp [h]
  · have hbeq : (a == b) = false := by simpa using h
    by_cases hlt : strLt a b = true
    · rw [if_neg (by simp [hbeq]), if_pos hlt]
      exact iff_of_true (by norm_num) (by simp [hlt])
    · have hlt' : strLt a b = false := by simpa using hlt
      rw [if_neg (by simp [hbeq]), if_neg (by simp [hlt'])]
      exact iff_of_false (by norm_num) (by simp [hbeq, hlt'])

theorem compareStr_eq_zero_iff {a b : String} : compareStr a b = 0 ↔ a = b := by
  unfold compareStr
  by_cases h : a = b
  · simp [h]
  · simp only [beq_iff_eq, h, if_false]
    by_cases hlt : strLt a b = true
    · simp [hlt, h]
    · simp [hlt, h]

theorem compareStr_lt_iff {a b : String} : compareStr a b < 0 ↔ strLt a b = true := by
  unfold compareStr
  by_cases h : a = b
  · subst h
    simp [strLt_irrefl]
  · simp only [beq_iff_eq, h, if_false]
    by_cases hlt : strLt a b = true
    · simp [hlt]
    · simp [hlt]

/-- What the comparator's "comes no later" relation unfolds to. -/
theorem assetLe_true_iff (a b : Asset) : assetLe a b = true ↔
    ((optTruthy a.pack = true ∧ optTruthy b.pack = true ∧
        (strLt (a.pack.getD "") (b.pack.getD "") = true ∨
          (a.pack.getD "" = b.pack.getD "" ∧ strLe a.name b.name = true))) ∨
      (optTruthy a.pack = false ∧ optTruthy b.pack = true) ∨
      (optTruthy a.pack = false ∧ optTruthy b.pack = false ∧
        strLe a.name b.name = true)) := by
  unfold assetLe assetCompare
  cases ha : optTruthy a.pack <;> cases hb : optTruthy b.pack
  · simp [ha, hb, compareStr_le_iff]
  · simp [ha, hb]
  · simp [ha, hb]
  · simp only [ha, hb, Bool.and_self, if_true, decide_eq_true_eq, Bool.true_eq_false,
      false_and, and_false, or_false, false_or, true_and]
    by_cases hpc : compareStr (a.pack.getD "") (b.pack.getD "") = 0
    · have heq : a.pack.getD "" = b.pack.getD "" := compareStr_eq_zero_iff.mp hpc
      rw [if_neg (by simp [hpc])]
      rw [compareStr_le_iff]
      constructor
      · intro hn
        exact Or.inr ⟨heq, hn⟩
      · intro hc
        rcases hc with hlt | ⟨_, hn⟩
        · rw [heq, strLt_irrefl] at hlt
          exact Bool.noConfusion hlt
        · exact hn
    · rw [if_pos (by simpa using hpc)]
      constructor
      · intro hle
        exact Or.inl (compareStr_lt_iff.mp (lt_of_le_of_ne hle hpc))
      · intro hc
        rcases hc with hlt | ⟨heq, _⟩
        · exact le_of_lt (compareStr_lt_iff.mpr hlt)
        · exact absurd (compareStr_eq_zero_iff.mpr heq) hpc

theorem assetLe_total : ∀ (a b : Asset), assetLe a b || assetLe b a := by
  intro a b
  rw [Bool.or_eq_true, assetLe_true_iff, assetLe_true_iff]
  cases ha : optTruthy a.pack <;> cases hb : optTruthy b.pack
  · rcases strLe_total a.name b.name with h | h
    · exact Or.inl (Or.inr (Or.inr ⟨rfl, rfl, h⟩))
    · exact Or.inr (Or.inr (Or.inr ⟨rfl, rfl, h⟩))
  · exact Or.inl (Or.inr (Or.inl ⟨rfl, rfl⟩))
  · exact Or.inr (Or.inr (Or.inl ⟨rfl, rfl⟩))
  · rcases strLt_trichotomy (a.pack.getD "") (b.pack.getD "") with hlt | heq | hgt
    · exact Or.inl (Or.inl ⟨rfl, rfl, Or.inl hlt⟩)
    · rcases strLe_total a.name b.name with h | h
      · exact Or.inl (Or.inl ⟨rfl, rfl, Or.inr ⟨heq, h⟩⟩)
      · exact Or.inr (Or.inl ⟨rfl, rfl, Or.inr ⟨heq.symm, h⟩⟩)
    · exact Or.inr (Or.inl ⟨rfl, rfl, Or.inl hgt⟩)

theorem assetLe_trans : ∀ (a b c : Asset),
    assetLe a b → assetLe b c → assetLe a c := by
  intro a b c hab hbc
  rw [assetLe_true_iff] at hab hbc ⊢
  rcases hab with ⟨ha, hb, hp⟩ | ⟨ha, hb⟩ | ⟨ha, hb, hn⟩
  · rcases hbc with ⟨hb2, hc, hp2⟩ | ⟨hb2, hc⟩ | ⟨hb2, hc, hn2⟩
    · refine Or.inl ⟨ha, hc, ?_⟩
      rcases hp with hlt | ⟨heq, hn⟩ <;> rcases hp2 with hlt2 | ⟨heq2, hn2⟩
      · exact Or.inl (strLt_trans hlt hlt2)
      · exact Or.inl (heq2 ▸ hlt)
      · exact Or.inl (heq ▸ hlt2)
      · exact Or.inr ⟨heq.trans heq2, strLe_trans hn hn2⟩
    · exact absurd hb2 (by simp [hb])
    · exact absurd hb2 (by simp [hb])
  · rcases hbc with ⟨hb2, hc, hp2⟩ | ⟨hb2, hc⟩ | ⟨hb2, hc, hn2⟩
    · exact Or.inr (Or.inl ⟨ha, hc⟩)
    · exact absurd hb2 (by simp [hb])
    · exact absurd hb2 (by simp [hb])
  · rcases hbc with ⟨hb2, hc, hp2⟩ | ⟨hb2, hc⟩ | ⟨hb2, hc, hn2⟩
    · exact absurd hb2 (by simp [hb])
    · exact Or.inr (Or.inl ⟨ha, hc⟩)
    · exact Or.inr (Or.inr ⟨ha, hc, strLe_trans hn hn2⟩)

/-- The asset order as the spec states it: assets without a pack first,
ordered by name; assets with a pack after, ordered by pack name then asset
name.  (Modelled from the spec's words, for comparison with the code's
comparator.) -/
def specAssetLe (a b : Asset) : Bool :=
  match a.pack, b.pack with
  | none, none => strLe a.name b.name
  | none, some _ => true
  | some _, none => false
  | some pa, some pb => if pa = pb then strLe a.name b.name else strLt pa pb

/-- On assets whose `pack` field is never the empty string — true of every
asset the indexer emits — the code's comparator is exactly the spec's order. -/
theorem assetLe_eq_spec (a b : Asset) (hA : a.pack ≠ some "") (hB : b.pack ≠ some "") :
    assetLe a b = specAssetLe a b := by
  rw [Bool.eq_iff_iff, assetLe_true_iff]
  cases hpa : a.pack with
  | none =>
      cases hpb : b.pack with
      | none => simp [specAssetLe, optTruthy, hpa, hpb]
      | some sb =>
          have hsb : sb ≠ "" := fun he => hB (by rw [hpb, he])
          simp [specAssetLe, optTruthy, hpa, hpb, hsb]
  | some sa =>
      have hsa : sa ≠ "" := fun he => hA (by rw [hpa, he])
      cases hpb : b.pack with
      | none => simp [specAssetLe, optTruthy, hpa, hpb, hsa]
      | some sb =>
          have hsb : sb ≠ "" := fun he => hB (by rw [hpb, he])
          by_cases heq : sa = sb
          · simp [specAssetLe, optTruthy, hpa, hpb, hsa, hsb, heq, strLt_irrefl]
          · simp [specAssetLe, optTruthy, hpa, hpb, hsa, hsb, heq]

/-! ### Grid geometry -/

theorem ceilSqrtAux_spec (n : Nat) : ∀ (fuel c : Nat),
    (c = 0 ∨ (c - 1) * (c - 1) < n) → n ≤ (c + fuel) * (c + fuel) →
    n ≤ ceilSqrtAux n fuel c * ceilSqrtAux n fuel c ∧
      (ceilSqrtAux n fuel c = 0 ∨
        (ceilSqrtAux n fuel c - 1) * (ceilSqrtAux n fuel c - 1) < n) := by
  intro fuel
  induction fuel with
  | zero =>
      intro c hinv hbound
      simp only [ceilSqrtAux]
      constructor
      · simpa using hbound
      · exact hinv
  | succ fuel ih =>
      intro c hinv hbound
      simp only [ceilSqrtAux]
      by_cases hle : n ≤ c * c
      · rw [if_pos hle]
        exact ⟨hle, hinv⟩
      · rw [if_neg hle]
        refine ih (c + 1) (Or.inr ?_) ?_
        · simpa using Nat.lt_of_not_le hle
        · have harr : c + 1 + fuel = c + (fuel + 1) := by omega
          rw [harr]
          exact hbound

theorem ceilSqrt_spec (n : Nat) (h : 1 ≤ n) :
    1 ≤ ceilSqrt n ∧ (ceilSqrt n - 1) * (ceilSqrt n - 1) < n ∧
      n ≤ ceilSqrt n * ceilSqrt n := by
  have hnn : n ≤ (0 + n) * (0 + n) := by
    have := Nat.le_mul_of_pos_left n h
    simpa using this
  obtain ⟨hup, hinv⟩ := ceilSqrtAux_spec n n 0 (Or.inl rfl) hnn
  have hpos : 1 ≤ ceilSqrt n := by
    rcases Nat.eq_zero_or_pos (ceilSqrt n) with h0 | h1
    · rw [ceilSqrt] at h0
      rw [h0] at hup
      omega
    · exact h1
  refine ⟨hpos, ?_, hup⟩
  rcases hinv with h0 | hlow
  · rw [ceilSqrt] at hpos
    omega
  · exact hlow

theorem calculateGrid_cols_bounds (n : Nat) (h : 1 ≤ n) :
    1 ≤ (calculateGrid n).1 ∧
    ((calculateGrid n).1 - 1) * ((calculateGrid n).1 - 1) < n ∧
    n ≤ (calculateGrid n).1 * (calculateGrid n).1 := by
  have h1 : (calculateGrid n).1 = ceilSqrt n := rfl
  rw [h1]
  exact ceilSqrt_spec n h

theorem calculateGrid_rows_bounds (n : Nat) (h : 1 ≤ n) :
    ((calculateGrid n).2 - 1) * (calculateGrid n).1 < n ∧
    n ≤ (calculateGrid n).2 * (calculateGrid n).1 := by
  have hc1 : 1 ≤ (calculateGrid n).1 := (calculateGrid_cols_bounds n h).1
  have h2 : (calculateGrid n).2 =
      (n + (calculateGrid n).1 - 1) / (calculateGrid n).1 := rfl
  set c := (calculateGrid n).1 with hcdef
  set r := (calculateGrid n).2 with hrdef
  have hdm := Nat.div_add_mod (n + c - 1) c
  have hmlt : (n + c - 1) % c < c := Nat.mod_lt _ (by omega)
  rw [← h2] at hdm
  have hsub : (r - 1) * c = r * c - c := by
    rw [Nat.sub_mul, Nat.one_mul]
  have hrc : r * c = c * r := Nat.mul_comm r c
  constructor
  · rw [hsub, hrc]
    omega
  · rw [hrc]
    omega

/-! ### Composite tile placement -/

theorem compositeTiles_eq_nil_iff (cols : Nat) :
    ∀ (i : Nat) (ps : List PreviewJob),
    (compositeTiles cols i ps = [] ↔ ∀ p ∈ ps, p.ok = false) := by
  intro i ps
  induction i, ps using compositeTiles.induct cols with
  | case1 i => simp [compositeTiles]
  | case2 i p rest ih =>
      simp only [compositeTiles]
      by_cases hok : p.ok
      · simp [hok]
      · simp [hok, ih]

theorem compositeTiles_all_ok (cols : Nat) :
    ∀ (i : Nat) (ps : List PreviewJob), (∀ p ∈ ps, p.ok = true) →
    compositeTiles cols i ps =
      (List.range ps.length).map
        (fun j => (tileX cols (i + j), tileY cols (i + j))) := by
  intro i ps
  induction i, ps using compositeTiles.induct cols with
  | case1 i => intro _; simp [compositeTiles]
  | case2 i p rest ih =>
      intro hall
      have hok : p.ok = true := hall p (by simp)
      have hrest : ∀ q ∈ rest, q.ok = true := fun q hq => hall q (by simp [hq])
      simp only [compositeTiles, hok, if_true, List.singleton_append]
      rw [ih hrest]
      have hfun : (fun j => (tileX cols (i + 1 + j), tileY cols (i + 1 + j))) =
          (fun j => (tileX cols (i + (j + 1)), tileY cols (i + (j + 1)))) := by
        funext j
        rw [show i + 1 + j = i + (j + 1) by omega]
      rw [hfun]
      simp [List.range_succ_eq_map, List.map_map, Function.comp]

/-! ### Concrete example inputs -/

/-- A root whose only subdirectory holds one image and no preview: no
directory qualifies as a pack. -/
def fallbackRoot : FsList := fsl [.dir "foo" (fsl [.file "a.png"])]

/-- The record the indexer emits for `foo/a.png` in `fallbackRoot`. -/
def fallbackAsset : Asset :=
  { name := "a.png", relativePath := "foo/a.png", category := "PNG",
    extension := ".png", focusGlTF := false, pack := some "foo" }

/-- The spec's end-to-end scenario root (§8). -/
def endToEndRoot : FsList := fsl
  [.dir "characters" (fsl
     [.dir "humans" (fsl [.file "Preview.jpg", .file "model1.gltf"]),
      .dir "monsters" (fsl [.file "preview.png", .file "model2.glb"])]),
   .file "texture.png"]

/-- A root that directly contains a recognized preview file name. -/
def previewAtRoot : FsList := fsl [.file "Preview.jpg"]

/-- A root with a preview directly at the root and a strictly nested
directory that also qualifies as a pack. -/
def previewAtRootNested : FsList := fsl
  [.file "Preview.jpg",
   .dir "sub" (fsl [.file "Preview.jpg", .file "m.glb"]),
   .file "tex.png"]

/-- The spec's sort-order example assets (§8). -/
def exPackB : Asset :=
  { name := "b.glb", relativePath := "packA/b.glb", category := "glTF",
    extension := ".glb", focusGlTF := true, pack := some "packA" }

def exRootA : Asset :=
  { name := "a.png", relativePath := "a.png", category := "PNG",
    extension := ".png", focusGlTF := false, pack := none }

def exPackA : Asset :=
  { name := "a.glb", relativePath := "packA/a.glb", category := "glTF",
    extension := ".glb", focusGlTF := true, pack := some "packA" }

/-- Failing and succeeding preview jobs for the compositor claims. -/
def previewFailA : PreviewJob := { name := "a", ok := false }

def previewFailB : PreviewJob := { name := "b", ok := false }

def previewOkC : PreviewJob := { name := "c", ok := true }

/-! ### C1 -/

/-- **C1** (counterexample).  On the root `{foo/a.png}` the detector finds no
pack directory at all, yet the emitted record for `foo/a.png` carries
`pack = "foo"` — produced by `getPackName`'s first-component fallback — where
the claim requires the record to have no pack field. -/
theorem C1_counterexample :
    findPackDirs fallbackRoot = [] ∧
    (buildAssets fallbackRoot).map (fun a => a.pack) = [some "foo"] := by
  exact ⟨rfl, by decide⟩

/-- **C1** (amended).  Every indexed asset's `pack` field is the truthy part
of `getPackName` on the asset's path components; when no detected
PackDirectory is a proper path-prefix of those components, the pack field is
absent only when the file lies directly under the AssetRoot — a file in a
subdirectory instead receives the first component of its root-relative path
(the fallback branch of `getPackName`). -/
theorem C1_packAssignment (root : FsList) (a : Asset) (h : a ∈ buildAssets root) :
    ∃ comps : List String, comps ≠ [] ∧ a.relativePath = joinPath comps ∧
      a.pack = truthyStr (getPackName comps (findPackDirs root)) ∧
      ((∀ pd ∈ findPackDirs root,
          ¬(pd.isPrefixOf comps = true ∧ pd.length < comps.length)) →
        a.pack = if 1 < comps.length then truthyStr (some (comps.headD "")) else none) := by
  rcases buildAssets_mem root a h with ⟨q, hext, hcont, hcat, hfoc, hrel, hpack⟩
  refine ⟨q ++ [a.name], by simp, hrel, hpack, ?_⟩
  intro hnone
  have hfind : (findPackDirs root).find?
      (fun pd => pd.isPrefixOf (q ++ [a.name]) &&
        decide (pd.length < (q ++ [a.name]).length)) = none := by
    rw [List.find?_eq_none]
    intro pd hpd hcond
    rw [Bool.and_eq_true] at hcond
    exact hnone pd hpd ⟨hcond.1, of_decide_eq_true hcond.2⟩
  rw [hpack]
  unfold getPackName
  rw [hfind]
  cases q with
  | nil => simp [truthyStr]
  | cons c t =>
      obtain ⟨y, ys, hy⟩ : ∃ y ys, t ++ [a.name] = y :: ys := by
        cases t with
        | nil => exact ⟨a.name, [], rfl⟩
        | cons x t2 => exact ⟨x, t2 ++ [a.name], rfl⟩
      rw [List.cons_append, hy]
      simp

/-- **C1** (witness): the amended statement at the concrete root
`{foo/a.png}` and its single emitted record. -/
theorem C1_witness :
    ∃ comps : List String, comps ≠ [] ∧
      fallbackAsset.relativePath = joinPath comps ∧
      fallbackAsset.pack = truthyStr (getPackName comps (findPackDirs fallbackRoot)) ∧
      ((∀ pd ∈ findPackDirs fallbackRoot,
          ¬(pd.isPrefixOf comps = true ∧ pd.length < comps.length)) →
        fallbackAsset.pack =
          if 1 < comps.length then truthyStr (some (comps.headD "")) else none) :=
  C1_packAssignment fallbackRoot fallbackAsset (by decide)

/-! ### C2 -/

/-- **C2** (counterexample).  On the end-to-end scenario root the index holds
five assets, not three: the two preview images have supported image
extensions and are indexed like any other file. -/
theorem C2_counterexample :
    (buildMetadata endToEndRoot).totalAssets = 5 ∧
    ¬((buildMetadata endToEndRoot).totalAssets = 3) := by
  exact ⟨by decide, by decide⟩

/-- **C2** (amended).  On the end-to-end scenario root the index has
`totalAssets = 5` (the two preview images are themselves indexed),
`glTFAssetCount = 2`, `categories = {PNG: 3, glTF: 2}`,
`packs = [characters/humans, characters/monsters]`,
`packCounts = {(root): 1, characters/humans: 2, characters/monsters: 2}`,
and `texture.png` still carries no pack field. -/
theorem C2_endToEnd :
    buildMetadata endToEndRoot =
      { totalAssets := 5
        glTFAssetCount := 2
        categories := [("PNG", 3), ("glTF", 2)]
        packs := some ["characters/humans", "characters/monsters"]
        packCounts := some [("(root)", 1), ("characters/humans", 2),
          ("characters/monsters", 2)] } ∧
    ((buildAssets endToEndRoot).filter (fun a => a.name == "texture.png")).map
      (fun a => a.pack) = [none] := by
  exact ⟨by decide, by decide⟩

/-! ### C3 -/

/-- **C3** (counterexample).  When the root directory itself directly
contains `Preview.jpg`, `findPackDirs` of `generate-assets-json.js` emits the
root itself (model path `[]`) — the claim says every emitted PackDirectory is
strictly below the root, for every root. -/
theorem C3_counterexample :
    findPackDirs previewAtRoot = [[]] ∧ [] ∈ findPackDirs previewAtRoot := by
  exact ⟨rfl, by decide⟩

/-- **C3** (amended).  The cli.js detector (`findPacksWithPreviews`) and the
combine-previews detector (`findPreviews`) never emit the root; the indexer's
`findPackDirs` does emit the root, and does so exactly when the root
directory itself directly contains a recognized preview filename. -/
theorem C3_detectorRootBehavior (root : FsList) (q : List String) :
    (q ∈ findPacksWithPreviews root → q ≠ []) ∧
    (q ∈ findPreviews root → q ≠ []) ∧
    ([] ∈ findPackDirs root ↔ (findPreviewIdx root).isSome = true) := by
  refine ⟨?_, ?_, mem_findPackDirs_iff_rootPreview root⟩
  · intro h
    rcases findPacksWithPreviewsAux_mem [] root q h with ⟨r, hr, hq⟩
    simp only [List.nil_append] at hq
    exact hq ▸ hr
  · intro h
    rcases findPreviewsAux_mem [] root q h with ⟨r, hr, hq⟩
    simp only [List.nil_append] at hq
    exact hq ▸ hr

/-! ### C5 -/

/-- **C5** (counterexample).  A directory holding only `Content.jpg`: the
pack detectors' lookup finds it, but the combine-previews script's lookup —
which tests only the six `Preview` variants — returns nothing, so the two
lookups are not the same twelve-name test the claim describes. -/
theorem C5_counterexample :
    findPreviewIdx (fsl [.file "Content.jpg"]) = some "Content.jpg" ∧
    findPreviewCombine (fsl [.file "Content.jpg"]) = none := by
  exact ⟨rfl, rfl⟩

/-- **C5** (amended).  The preview lookup used by the pack detectors
(`generate-assets-json.js` and `bin/cli.js`) tests the twelve names in the
claimed order, but the combine-previews script's lookup tests only the first
six (the `Preview` variants); each returns the first listed name present in
the directory, and nothing when none is present. -/
theorem C5_previewLookup :
    previewNamesIdx.length = 12 ∧
    previewNamesCombine = previewNamesIdx.take 6 ∧
    (∀ (names : List String) (es : FsList) (nm : String),
      findPreviewWith names es = some nm ↔
        (hasEntry es nm = true ∧ ∃ l1 l2, names = l1 ++ nm :: l2 ∧
          ∀ m ∈ l1, hasEntry es m = false)) := by
  refine ⟨rfl, rfl, ?_⟩
  intro names es nm
  rw [findPreviewWith, List.find?_eq_some]
  constructor
  · rintro ⟨hp, as, bs, he, hall⟩
    exact ⟨hp, as, bs, he, fun m hm => by simpa using hall m hm⟩
  · rintro ⟨hp, as, bs, he, hall⟩
    exact ⟨hp, as, bs, he, fun m hm => by simpa using hall m hm⟩

/-! ### C6 -/

/-- **C6**.  The indexer's output asset list is sorted by the claimed total
order (assets without a pack first, by name; then assets with a pack, by
pack name and then name — string order being code-point "lexical" order),
and the spec's three-asset example sorts to `a.png, a.glb, b.glb`. -/
theorem C6_sortOrder (root : FsList) :
    (buildAssets root).Pairwise (fun x y => specAssetLe x y = true) ∧
    sortAssets [exPackB, exRootA, exPackA] = [exRootA, exPackA, exPackB] := by
  constructor
  · haveI : IsTotal Asset (fun a b => assetLe a b = true) := ⟨fun a b => by
      have ht := assetLe_total a b
      rw [Bool.or_eq_true] at ht
      rcases ht with h | h
      · exact Or.inl h
      · exact Or.inr h⟩
    haveI : IsTrans Asset (fun a b => assetLe a b = true) := ⟨fun a b c hab hbc =>
      assetLe_trans a b c hab hbc⟩
    have hp : (buildAssets root).Pairwise (fun x y => assetLe x y = true) := by
      unfold buildAssets sortAssets
      exact List.sorted_insertionSort _ _
    refine List.Pairwise.imp_of_mem ?_ hp
    intro x y hx hy hle
    rcases buildAssets_mem root x hx with ⟨qx, _, _, _, _, _, hpx⟩
    rcases buildAssets_mem root y hy with ⟨qy, _, _, _, _, _, hpy⟩
    rw [← assetLe_eq_spec x y (by rw [hpx]; exact truthyStr_ne_some_empty _)
      (by rw [hpy]; exact truthyStr_ne_some_empty _)]
    exact hle
  · decide

/-! ### C7 -/

/-- **C7**.  Every asset the indexer emits is classified exactly by the fixed
extension table: `.gltf`/`.glb` are `glTF` with `focusGlTF` true, `.obj`/
`.fbx` are `3D`, the five raster image extensions are `PNG`, the three audio
extensions are `Audio`, all with `focusGlTF` false; and only the fourteen
filter extensions can appear — `.json` and `.txt` are excluded entirely. -/
theorem C7_classification (root : FsList) (a : Asset) (h : a ∈ buildAssets root) :
    a.extension ∈ allExtensions ∧
    (".json" : String) ∉ allExtensions ∧ (".txt" : String) ∉ allExtensions ∧
    a.category = getCategory a.extension ∧
    (a.focusGlTF = true ↔ (a.extension = ".gltf" ∨ a.extension = ".glb")) ∧
    ((a.extension = ".gltf" ∨ a.extension = ".glb") →
        a.category = "glTF" ∧ a.focusGlTF = true) ∧
    ((a.extension = ".obj" ∨ a.extension = ".fbx") →
        a.category = "3D" ∧ a.focusGlTF = false) ∧
    (a.extension ∈ supportedImages → a.category = "PNG" ∧ a.focusGlTF = false) ∧
    (a.extension ∈ supportedAudio → a.category = "Audio" ∧ a.focusGlTF = false) := by
  rcases buildAssets_mem root a h with ⟨q, hext, hcont, hcat, hfoc, hrel, hpack⟩
  have hmem : a.extension ∈ allExtensions := by simpa using hcont
  have hiff : a.focusGlTF = true ↔ (a.extension = ".gltf" ∨ a.extension = ".glb") := by
    rw [hfoc]
    simp [Bool.or_eq_true, beq_iff_eq]
  refine ⟨hmem, by decide, by decide, hcat, hiff, ?_, ?_, ?_, ?_⟩
  · intro hx
    rcases hx with h1 | h1 <;> rw [hcat, hfoc, h1] <;> exact ⟨by decide, by decide⟩
  · intro hx
    rcases hx with h1 | h1 <;> rw [hcat, hfoc, h1] <;> exact ⟨by decide, by decide⟩
  · intro hx
    simp only [supportedImages, List.mem_cons, List.mem_singleton,
      List.not_mem_nil, or_false] at hx
    rcases hx with h1 | h1 | h1 | h1 | h1 <;> rw [hcat, hfoc, h1] <;>
      exact ⟨by decide, by decide⟩
  · intro hx
    simp only [supportedAudio, List.mem_cons, List.mem_singleton,
      List.not_mem_nil, or_false] at hx
    rcases hx with h1 | h1 | h1 <;> rw [hcat, hfoc, h1] <;>
      exact ⟨by decide, by decide⟩

/-- A one-file root and its emitted record, used to witness the
classification claim. -/
def glbRoot : FsList := fsl [.file "m.glb"]

def glbAsset : Asset :=
  { name := "m.glb", relativePath := "m.glb", category := "glTF",
    extension := ".glb", focusGlTF := true, pack := none }

/-- **C7** (witness): the classification facts at the concrete root
`{m.glb}`. -/
theorem C7_witness :
    glbAsset.extension ∈ allExtensions ∧
    (".json" : String) ∉ allExtensions ∧ (".txt" : String) ∉ allExtensions ∧
    glbAsset.category = getCategory glbAsset.extension ∧
    (glbAsset.focusGlTF = true ↔
      (glbAsset.extension = ".gltf" ∨ glbAsset.extension = ".glb")) ∧
    ((glbAsset.extension = ".gltf" ∨ glbAsset.extension = ".glb") →
        glbAsset.category = "glTF" ∧ glbAsset.focusGlTF = true) ∧
    ((glbAsset.extension = ".obj" ∨ glbAsset.extension = ".fbx") →
        glbAsset.category = "3D" ∧ glbAsset.focusGlTF = false) ∧
    (glbAsset.extension ∈ supportedImages →
        glbAsset.category = "PNG" ∧ glbAsset.focusGlTF = false) ∧
    (glbAsset.extension ∈ supportedAudio →
        glbAsset.category = "Audio" ∧ glbAsset.focusGlTF = false) :=
  C7_classification glbRoot glbAsset (by decide)

/-! ### C9 -/

/-- **C9**.  If the root directory itself directly contains a recognized
preview filename, the root is the first entry of `findPackDirs`, every
scanned file prefix-matches it with relative name `""`, which JS truthiness
treats as absent — so no asset carries a pack field and the `packs` and
`packCounts` metadata fields are omitted, nested qualifying directories
notwithstanding. -/
theorem C9_rootPreviewSuppressesPacks (root : FsList)
    (h : (findPreviewIdx root).isSome = true) :
    (∀ a ∈ buildAssets root, a.pack = none) ∧
    (buildMetadata root).packs = none ∧
    (buildMetadata root).packCounts = none := by
  have hall : ∀ a ∈ buildAssets root, a.pack = none := by
    intro a ha
    rcases buildAssets_mem root a ha with ⟨q, _, _, _, _, _, hpack⟩
    have hpackdirs : findPackDirs root = [] :: findPackDirsAux [] root := by
      unfold findPackDirs
      rw [if_pos h]
      rfl
    rw [hpack, hpackdirs]
    unfold getPackName
    rw [List.find?_cons_of_pos _ (by
      rw [Bool.and_eq_true]
      refine ⟨List.isPrefixOf_nil_left, ?_⟩
      rw [decide_eq_true_eq]
      simp)]
    rfl
  have hpl : truthyPacks (buildAssets root) = [] := by
    rw [truthyPacks, List.filterMap_eq_nil_iff]
    intro a ha
    rw [hall a ha]
    rfl
  refine ⟨hall, ?_, ?_⟩
  · unfold buildMetadata
    simp [hpl, dedupKeepFirst]
  · unfold buildMetadata
    simp [hpl, dedupKeepFirst]

/-- **C9** (witness): at a concrete root with a root-level `Preview.jpg` and
a nested qualifying pack, the metadata omits `packs`/`packCounts`. -/
theorem C9_witness :
    (∀ a ∈ buildAssets previewAtRootNested, a.pack = none) ∧
    (buildMetadata previewAtRootNested).packs = none ∧
    (buildMetadata previewAtRootNested).packCounts = none :=
  C9_rootPreviewSuppressesPacks previewAtRootNested (by decide)

/-! ### C4 -/

/-- **C4** (counterexample).  Two previews that both fail to decode: the
combine-previews script's `combineImages` still writes a background-only
1965×570 canvas with no tiles and returns the output path — it does not
return `null` as the claim requires. -/
theorem C4_counterexample :
    combineImages [previewFailA, previewFailB] =
      some (ComposeResult.grid 1965 570 []) ∧
    combineImages [previewFailA, previewFailB] ≠ none := by
  exact ⟨by decide, by decide⟩

/-- **C4** (amended).  For `n ≥ 2` previews an individual decode failure
never aborts composition; when every preview fails, cli.js's
`combinePreviews` returns `null` and writes nothing, but the standalone
script's `combineImages` still writes a background-only canvas: its result
is always a file. -/
theorem C4_failureIsolation (ps : List PreviewJob) (h : 2 ≤ ps.length) :
    (combineImages ps).isSome = true ∧
    (combinePreviews ps = none ↔ ∀ p ∈ ps, p.ok = false) := by
  constructor
  · match ps, h with
    | p1 :: p2 :: rest, _ => rfl
  · constructor
    · intro hnone
      refine (compositeTiles_eq_nil_iff (calculateGrid ps.length).1 0 ps).mp ?_
      by_contra hz
      have hlen : (compositeTiles (calculateGrid ps.length).1 0 ps).length ≠ 0 :=
        fun hl => hz (List.length_eq_zero.mp hl)
      simp only [combinePreviews] at hnone
      rw [if_neg (by simpa using hlen)] at hnone
      exact Option.noConfusion hnone
    · intro hall
      have hz := (compositeTiles_eq_nil_iff (calculateGrid ps.length).1 0 ps).mpr hall
      simp [combinePreviews, hz]

/-- **C4** (witness): the amended statement at a concrete two-preview input
with one decode failure. -/
theorem C4_witness :
    2 ≤ ([previewFailA, previewOkC] : List PreviewJob).length ∧
    ((combineImages [previewFailA, previewOkC]).isSome = true ∧
      (combinePreviews [previewFailA, previewOkC] = none ↔
        ∀ p ∈ [previewFailA, previewOkC], p.ok = false)) :=
  ⟨by decide, C4_failureIsolation [previewFailA, previewOkC] (by decide)⟩

/-! ### C8 -/

/-- **C8**.  For `n ≥ 2` previews the grid has `cols = ceil(sqrt n)` (the
least `c` with `n ≤ c²`) and `rows = ceil(n / cols)`, the canvas measures
`cols*960 + (cols+1)*15` by `rows*540 + (rows+1)*15`, and preview `i` lands
at grid cell `(i % cols, i / cols)`; concretely `n = 5` gives a 3×2 grid
with a 2940×1125 canvas, `n = 9` gives 3×3, and `n = 10` gives 4×3. -/
theorem C8_gridGeometry (n : Nat) (h : 2 ≤ n) :
    (1 ≤ (calculateGrid n).1 ∧
      ((calculateGrid n).1 - 1) * ((calculateGrid n).1 - 1) < n ∧
      n ≤ (calculateGrid n).1 * (calculateGrid n).1) ∧
    (((calculateGrid n).2 - 1) * (calculateGrid n).1 < n ∧
      n ≤ (calculateGrid n).2 * (calculateGrid n).1) ∧
    (∀ ps : List PreviewJob, ps.length = n → (∀ p ∈ ps, p.ok = true) →
      combineImages ps = some (ComposeResult.grid
        (canvasWidth (calculateGrid n).1) (canvasHeight (calculateGrid n).2)
        ((List.range n).map (fun i =>
          (tileX (calculateGrid n).1 i, tileY (calculateGrid n).1 i))))) ∧
    calculateGrid 5 = (3, 2) ∧ canvasWidth 3 = 2940 ∧ canvasHeight 2 = 1125 ∧
    calculateGrid 9 = (3, 3) ∧ calculateGrid 10 = (4, 3) := by
  refine ⟨calculateGrid_cols_bounds n (by omega),
    calculateGrid_rows_bounds n (by omega), ?_, by decide, by decide, by decide,
    by decide, by decide⟩
  intro ps hlen hall
  match ps, hlen, h with
  | p1 :: p2 :: rest, hlen, _ =>
      have hcomb : combineImages (p1 :: p2 :: rest) =
          some (ComposeResult.grid
            (canvasWidth (calculateGrid (p1 :: p2 :: rest).length).1)
            (canvasHeight (calculateGrid (p1 :: p2 :: rest).length).2)
            (compositeTiles (calculateGrid (p1 :: p2 :: rest).length).1 0
              (p1 :: p2 :: rest))) := rfl
      have ht := compositeTiles_all_ok (calculateGrid n).1 0 (p1 :: p2 :: rest) hall
      rw [hlen] at ht
      simp only [Nat.zero_add] at ht
      rw [hcomb, hlen, ht]

/-- **C8** (witness): the grid facts extracted from the theorem at `n = 5`. -/
theorem C8_witness :
    calculateGrid 5 = (3, 2) ∧ canvasWidth 3 = 2940 ∧ canvasHeight 2 = 1125 ∧
    calculateGrid 9 = (3, 3) ∧ calculateGrid 10 = (4, 3) :=
  (C8_gridGeometry 5 (by decide)).2.2.2

/-! ### C10 -/

/-- **C10**.  For `n ≥ 2` previews and any tile index `i < n`, the tile at
offset `(15 + (i % cols)·975, 15 + (i / cols)·555)` together with its
trailing padding lies inside the `cols·960 + (cols+1)·15` by
`rows·540 + (rows+1)·15` canvas. -/
theorem C10_tilesInCanvas (n i : Nat) (h2 : 2 ≤ n) (hi : i < n) :
    tileX (calculateGrid n).1 i + cellWidth + gridPadding ≤
      canvasWidth (calculateGrid n).1 ∧
    tileY (calculateGrid n).1 i + cellHeight + gridPadding ≤
      canvasHeight (calculateGrid n).2 := by
  obtain ⟨hc1, _, _⟩ := calculateGrid_cols_bounds n (by omega)
  obtain ⟨_, hrc⟩ := calculateGrid_rows_bounds n (by omega)
  set c := (calculateGrid n).1 with hc
  set r := (calculateGrid n).2 with hr
  have hmod : i % c < c := Nat.mod_lt i (by omega)
  have hdiv : i / c < r := by
    rw [Nat.div_lt_iff_lt_mul (by omega)]
    exact Nat.lt_of_lt_of_le hi hrc
  constructor
  · unfold tileX canvasWidth cellWidth gridPadding
    set x := i % c with hx
    omega
  · unfold tileY canvasHeight cellHeight gridPadding
    set y := i / c with hy
    omega

/-- **C10** (witness): the last tile of a five-preview grid fits in the
canvas. -/
theorem C10_witness :
    tileX (calculateGrid 5).1 4 + cellWidth + gridPadding ≤
      canvasWidth (calculateGrid 5).1 ∧
    tileY (calculateGrid 5).1 4 + cellHeight + gridPadding ≤
      canvasHeight (calculateGrid 5).2 :=
  C10_tilesInCanvas 5 4 (by decide) (by decide)

end AssetPipeline
